import Mathlib

/-!
# Verification of the view-state synchronization and search subsystem

Shallow embedding of the survey-map web application's core:

* the coordinate codec and View-State Store (`src/hooks/use-url-state.ts`:
  `parseUrlState`, `updateUrlState`),
* the Point Index operations (`src/components/map-container.tsx`:
  the exact-match lookup inside `searchAndFlyTo`, `getSuggestions`,
  `loadGeoJSONData`),
* the search orchestration (`handleSearchById` in the page component) and the
  suggestion wiring in `src/components/search-box.tsx` (`handleInputChange`).

Modelling conventions:

* JavaScript numbers are modelled as exact rationals extended with the
  distinguished values `NaN`, `Infinity` and `-Infinity` (`JSNum`).  IEEE-754
  double rounding is not modelled; every claim below is about integer
  quantisation and string handling, where doubles and rationals agree on the
  relevant inputs.
* `Number(string)` coercion is modelled by `jsNumberL`: leading/trailing
  whitespace is trimmed, the empty string coerces to `0`, signed decimal
  literals with optional fraction and exponent, `Infinity`, and unsigned
  hexadecimal / octal / binary literals are recognised; anything else is `NaN`.
* `URLSearchParams` is modelled as an ordered association list of
  already-percent-decoded key/value pairs; `get` returns the first binding,
  `set` replaces the first binding and drops the rest, `delete` drops all.
* `toLowerCase` is modelled by ASCII lowering (cell identifiers are ASCII) and
  the default `Array.sort()` comparison by the code-point order on strings.
-/

/-! ## JavaScript number values -/

/-- JavaScript number modelled as a rational extended with `NaN` and the two
infinities. -/
inductive JSNum where
  | nan
  | inf
  | ninf
  | fin (q : ℚ)
deriving DecidableEq, Repr

/-- Unary minus on a JavaScript number. -/
def jsNeg : JSNum → JSNum
  | .nan => .nan
  | .inf => .ninf
  | .ninf => .inf
  | .fin q => .fin (-q)

/-- Division of a JavaScript number by a positive rational constant (used for
the `/ 100000` dequantisation). -/
def jsDiv : JSNum → ℚ → JSNum
  | .nan, _ => .nan
  | .inf, _ => .inf
  | .ninf, _ => .ninf
  | .fin q, d => .fin (q / d)

/-- The `isNaN` test. -/
def jsIsNaN : JSNum → Bool
  | .nan => true
  | _ => false

/-- The `Number.isFinite` test. -/
def jsIsFinite : JSNum → Bool
  | .fin _ => true
  | _ => false

/-- The `Math.round` of a (finite) JavaScript number: half-up rounding,
`Math.round(x) = ⌊x + 1/2⌋` (`Rat.floor` coincides with `Int.floor` on `ℚ`). -/
def jsRound (q : ℚ) : ℤ := (q + 1/2).floor

/-! ## Strings: whitespace trimming, digits, `Number(·)` coercion -/

/-- Whitespace characters stripped by `String.prototype.trim` and by the
`Number(·)` coercion (the common ASCII class). -/
def isWsChar (c : Char) : Bool :=
  c = ' ' || c = '\t' || c = '\n' || c = '\r' || c = '\x0B' || c = '\x0C'

/-- Trim both ends of a character list. -/
def jsTrimL (cs : List Char) : List Char :=
  (cs.dropWhile isWsChar).rdropWhile isWsChar

/-- Model of `String.prototype.trim`. -/
def jsTrim (s : String) : String := ⟨jsTrimL s.data⟩

/-- Numeric value of an ASCII decimal digit character. -/
def charVal (c : Char) : ℕ := c.toNat - 48

/-- Big-endian accumulation of decimal digit characters into a natural. -/
def natVal (cs : List Char) : ℕ := cs.foldl (fun a c => 10 * a + charVal c) 0

/-- Hexadecimal digit test. -/
def isHexC (c : Char) : Bool :=
  c.isDigit || ('a' ≤ c && c ≤ 'f') || ('A' ≤ c && c ≤ 'F')

/-- Value of a hexadecimal digit character. -/
def hexVal (c : Char) : ℕ :=
  if c.isDigit then charVal c
  else if 'a' ≤ c && c ≤ 'f' then c.toNat - 87
  else c.toNat - 55

/-- Octal digit test. -/
def isOctC (c : Char) : Bool := '0' ≤ c && c ≤ '7'

/-- Binary digit test. -/
def isBinC (c : Char) : Bool := c = '0' || c = '1'

/-- Radix-prefixed integer literal body (after `0x` / `0o` / `0b`): all
characters must be digits of the base, and at least one is required. -/
def parseRadix (b : ℕ) (isD : Char → Bool) (val : Char → ℕ) (cs : List Char) : JSNum :=
  if cs.isEmpty then .nan
  else if cs.all isD then
    .fin ((cs.foldl (fun a c => b * a + val c) 0 : ℕ) : ℚ)
  else .nan

/-- Mantissa value of an integer part and a fraction part. -/
def mantVal (ip fp : List Char) : ℚ :=
  (natVal ip : ℚ) + (natVal fp : ℚ) / (10 : ℚ) ^ fp.length

/-- Exponent suffix of a decimal literal (after `e` / `E`). -/
def parseExpPart (m : ℚ) (cs : List Char) : JSNum :=
  match cs with
  | '-' :: ds =>
    if !ds.isEmpty && ds.all Char.isDigit then .fin (m / (10 : ℚ) ^ natVal ds) else .nan
  | '+' :: ds =>
    if !ds.isEmpty && ds.all Char.isDigit then .fin (m * (10 : ℚ) ^ natVal ds) else .nan
  | ds =>
    if !ds.isEmpty && ds.all Char.isDigit then .fin (m * (10 : ℚ) ^ natVal ds) else .nan

/-- Unsigned decimal literal: digits, optional `.` fraction, optional
exponent; the whole input must be consumed. -/
def parseDec (cs : List Char) : JSNum :=
  let ip := cs.takeWhile Char.isDigit
  let r1 := cs.dropWhile Char.isDigit
  match r1 with
  | [] => if ip.isEmpty then .nan else .fin ((natVal ip : ℕ) : ℚ)
  | '.' :: r2 =>
    let fp := r2.takeWhile Char.isDigit
    let r3 := r2.dropWhile Char.isDigit
    if ip.isEmpty && fp.isEmpty then .nan
    else
      match r3 with
      | [] => .fin (mantVal ip fp)
      | c :: r4 => if c = 'e' || c = 'E' then parseExpPart (mantVal ip fp) r4 else .nan
  | c :: r4 =>
    if (c = 'e' || c = 'E') && !ip.isEmpty then parseExpPart ((natVal ip : ℕ) : ℚ) r4
    else .nan

/-- The characters of the literal `Infinity`. -/
def infinityChars : List Char := ['I', 'n', 'f', 'i', 'n', 'i', 't', 'y']

/-- Unsigned numeric literal: `Infinity` or a decimal literal. -/
def parseUnsigned (cs : List Char) : JSNum :=
  if cs = infinityChars then .inf else parseDec cs

/-- Optionally signed numeric literal. -/
def parseSigned (cs : List Char) : JSNum :=
  match cs with
  | [] => parseUnsigned []
  | c :: r =>
    if c = '-' then jsNeg (parseUnsigned r)
    else if c = '+' then parseUnsigned r
    else parseUnsigned (c :: r)

/-- Numeric literal: radix-prefixed integer (no sign allowed, as in
JavaScript) or a signed decimal / `Infinity` literal. -/
def parseNumLit (cs : List Char) : JSNum :=
  match cs with
  | c0 :: c1 :: rest =>
    if c0 = '0' then
      if c1 = 'x' || c1 = 'X' then parseRadix 16 isHexC hexVal rest
      else if c1 = 'o' || c1 = 'O' then parseRadix 8 isOctC charVal rest
      else if c1 = 'b' || c1 = 'B' then parseRadix 2 isBinC charVal rest
      else parseSigned (c0 :: c1 :: rest)
    else parseSigned (c0 :: c1 :: rest)
  | cs => parseSigned cs

/-- Model of the JavaScript `Number(string)` coercion on a character list:
trim whitespace, the empty string coerces to `0`, otherwise parse a numeric
literal. -/
def jsNumberL (cs : List Char) : JSNum :=
  let t := jsTrimL cs
  if t.isEmpty then .fin 0 else parseNumLit t

/-- Model of `Number(string)`. -/
def jsNumber (s : String) : JSNum := jsNumberL s.data

/-! ## Rendering numbers to strings (template-literal interpolation) -/

/-- Decimal digit character of a value below ten. -/
def digitChar (d : ℕ) : Char := Char.ofNat (48 + d)

/-- Fuel-driven decimal rendering of a positive natural (most significant
digit first); `fuel ≥ n` suffices. -/
def natCharsAux : ℕ → ℕ → List Char
  | 0, _ => []
  | fuel + 1, n => if n = 0 then [] else natCharsAux fuel (n / 10) ++ [digitChar (n % 10)]

/-- Decimal rendering of a natural, as JavaScript renders an integral number
inside a template literal. -/
def natChars (n : ℕ) : List Char := if n = 0 then ['0'] else natCharsAux (n + 1) n

/-- Decimal rendering of an integer (leading `-` for negative values). -/
def intChars (z : ℤ) : List Char :=
  if z < 0 then '-' :: natChars z.natAbs else natChars z.natAbs

/-- Integer rendered as a string. -/
def intS (z : ℤ) : String := ⟨intChars z⟩

/-- Natural rendered as a string. -/
def natS (n : ℕ) : String := ⟨natChars n⟩

/-! ## Splitting and substring search -/

/-- Model of `String.prototype.split` with a one-character separator:
`splitOnChar c cs` returns the (possibly empty) chunks between occurrences of
`c`; the empty list yields `[[]]`, as `"".split(c)` yields `[""]`. -/
def splitOnChar (sep : Char) : List Char → List (List Char)
  | [] => [[]]
  | c :: cs =>
    if c = sep then [] :: splitOnChar sep cs
    else
      match splitOnChar sep cs with
      | [] => [[c]]
      | r :: rs => (c :: r) :: rs

/-- Model of `String.prototype.includes`: `jsIncludesL s pat` holds when `pat`
occurs contiguously inside `s`. -/
def jsIncludesL : List Char → List Char → Bool
  | s, pat =>
    if pat.isPrefixOf s then true
    else
      match s with
      | [] => false
      | _ :: t => jsIncludesL t pat

/-- ASCII lowering, modelling `String.prototype.toLowerCase` on the ASCII
identifiers used by the dataset. -/
def lowerS (s : String) : String := ⟨s.data.map Char.toLower⟩

/-- Code-unit comparison of character lists, as the default `Array.sort()`
comparator orders strings (lexicographically by code unit). -/
def charListLt : List Char → List Char → Bool
  | _, [] => false
  | [], _ :: _ => true
  | a :: as, b :: bs =>
    if a.toNat < b.toNat then true
    else if b.toNat < a.toNat then false
    else charListLt as bs

/-- Strict string comparison by code units. -/
def strLtB (a b : String) : Bool := charListLt a.data b.data

/-- The ordering used for suggestion results: `a` sorts no later than `b`. -/
def strLe (a b : String) : Prop := strLtB b a = false

instance : DecidableRel strLe := fun _ _ => instDecidableEqBool _ _

/-! ## The View-State Store (`src/hooks/use-url-state.ts`) -/

/-- Result of `parseUrlState`: the partial map state read from the URL.  Each
field mirrors one optional property of the returned object. -/
structure ParsedState where
  zoom : Option JSNum
  lat : Option JSNum
  lng : Option JSNum
  cellId : Option String
deriving DecidableEq, Repr

/-- The empty partial state `{}`. -/
def emptyParsed : ParsedState := ⟨none, none, none, none⟩

/-- Argument of `updateUrlState`: a partial map state to be merged into the
URL.  Positional values are rationals (they come from the map widget's
`getCenter` / `getZoom`, which yield finite numbers). -/
structure UpdState where
  zoom : Option ℚ
  lat : Option ℚ
  lng : Option ℚ
  cellId : Option String
deriving DecidableEq, Repr

/-- A URL as far as the store observes it: the fragment (including the `#`)
and the ordered, percent-decoded query parameters. -/
structure Url where
  hash : String
  params : List (String × String)
deriving DecidableEq, Repr

/-- Model of `URLSearchParams.get`: value of the first binding of `k`. -/
def getParam (ps : List (String × String)) (k : String) : Option String :=
  (ps.find? (fun kv => kv.1 == k)).map (fun kv => kv.2)

/-- Model of `URLSearchParams.set`: replace the value of the first binding of
`k` (dropping later bindings), or append a new binding. -/
def setParam : List (String × String) → String → String → List (String × String)
  | [], k, v => [(k, v)]
  | (k', v') :: rest, k, v =>
    if k' = k then (k, v) :: rest.filter (fun kv => kv.1 ≠ k)
    else (k', v') :: setParam rest k v

/-- Model of `URLSearchParams.delete`: drop every binding of `k`. -/
def delParam (ps : List (String × String)) (k : String) : List (String × String) :=
  ps.filter (fun kv => kv.1 ≠ k)

/-- The four characters of the compact-format tag `map_`. -/
def mapTagChars : List Char := ['m', 'a', 'p', '_']

/-- Model of `parseUrlState` (src/hooks/use-url-state.ts, lines 13–59).
`locationHash` is `window.location.hash` (empty or starting with `#`), and
`params` the decoded query parameters.  The slash form is tried first, then
the compact `map_` form; the three positional fields are assigned together
under a single `!isNaN` guard.  The body never throws, so the `try`/`catch`
of the source is the identity here. -/
def parseUrlState (locationHash : String) (params : List (String × String)) : ParsedState :=
  let hash : List Char := locationHash.data.drop 1
  let s1 : ParsedState :=
    if hash.isEmpty then emptyParsed
    else if hash.contains '/' then
      match splitOnChar '/' hash with
      | [p0, p1, p2] =>
        if !jsIsNaN (jsNumberL p0) && !jsIsNaN (jsNumberL p1) && !jsIsNaN (jsNumberL p2) then
          { emptyParsed with
            zoom := some (jsNumberL p0), lat := some (jsNumberL p1), lng := some (jsNumberL p2) }
        else emptyParsed
      | _ => emptyParsed
    else if mapTagChars.isPrefixOf hash then
      match splitOnChar '_' (hash.drop 4) with
      | [p0, p1, p2] =>
        if !jsIsNaN (jsNumberL p0) && !jsIsNaN (jsDiv (jsNumberL p1) 100000)
            && !jsIsNaN (jsDiv (jsNumberL p2) 100000) then
          { emptyParsed with
            zoom := some (jsNumberL p0), lat := some (jsDiv (jsNumberL p1) 100000),
            lng := some (jsDiv (jsNumberL p2) 100000) }
        else emptyParsed
      | _ => emptyParsed
    else emptyParsed
  match getParam params "id" with
  | some c => if c ≠ "" then { s1 with cellId := some (jsTrim c) } else s1
  | none => s1

/-- Spec-side definition (claim C2, as stated): a fragment is malformed when
the slash form has a wrong part count or a part that does not parse as a
*finite* number, the compact form has a wrong part count or a part parsing as
NaN, or the format is unknown (neither empty, slash, nor `map_`). -/
def specFragmentMalformedStated (locationHash : String) : Bool :=
  let hash : List Char := locationHash.data.drop 1
  if hash.isEmpty then false
  else if hash.contains '/' then
    let parts := splitOnChar '/' hash
    decide (parts.length ≠ 3) || parts.any (fun p => !jsIsFinite (jsNumberL p))
  else if mapTagChars.isPrefixOf hash then
    let parts := splitOnChar '_' (hash.drop 4)
    decide (parts.length ≠ 3) || parts.any (fun p => jsIsNaN (jsNumberL p))
  else true

/-- Spec-side definition (claim C2, amended): as
`specFragmentMalformedStated`, except that a slash-form part is bad exactly
when it parses as NaN — the code's guard admits parts parsing to `±Infinity`,
which are numbers though not finite ones. -/
def specFragmentMalformed (locationHash : String) : Bool :=
  let hash : List Char := locationHash.data.drop 1
  if hash.isEmpty then false
  else if hash.contains '/' then
    let parts := splitOnChar '/' hash
    decide (parts.length ≠ 3) || parts.any (fun p => jsIsNaN (jsNumberL p))
  else if mapTagChars.isPrefixOf hash then
    let parts := splitOnChar '_' (hash.drop 4)
    decide (parts.length ≠ 3) || parts.any (fun p => jsIsNaN (jsNumberL p))
  else true

/-- The compact fragment `#map_<zoom>_<latInt>_<lngInt>`. -/
def compactHash (z latI lngI : ℤ) : String :=
  "#map_" ++ intS z ++ "_" ++ intS latI ++ "_" ++ intS lngI

/-- Model of `updateUrlState` (src/hooks/use-url-state.ts, lines 61–90).
When zoom, lat and lng are all present the fragment is rewritten to the
compact form; the `!isNaN` guard of the source is always satisfied here
because the inputs are rationals.  A present `cellId` sets or deletes the
`id` query parameter; absent fields leave the URL untouched. -/
def updateUrlState (url : Url) (ns : UpdState) : Url :=
  let url1 :=
    match ns.zoom, ns.lat, ns.lng with
    | some z, some la, some ln =>
      { url with hash := compactHash (jsRound z) (jsRound (la * 100000)) (jsRound (ln * 100000)) }
    | _, _, _ => url
  match ns.cellId with
  | some c =>
    if c ≠ "" then { url1 with params := setParam url1.params "id" c }
    else { url1 with params := delParam url1.params "id" }
  | none => url1

/-- The cell-id read from the query parameters alone (the last block of
`parseUrlState`). -/
def cellIdOfParams (ps : List (String × String)) : Option String :=
  match getParam ps "id" with
  | some c => if c ≠ "" then some (jsTrim c) else none
  | none => none

/-! ## The Point Index (`src/components/map-container.tsx`) -/

/-- A survey point as loaded from the dataset. -/
structure SurveyPoint where
  id : String
  lat : ℚ
  lng : ℚ
  cell_id : String
deriving DecidableEq, Repr

/-- Exact-match lookup (map-container.tsx line 132): first point whose
`cell_id` equals the query up to case. -/
def findExact (pts : List SurveyPoint) (cellId : String) : Option SurveyPoint :=
  pts.find? (fun p => lowerS p.cell_id == lowerS cellId)

/-- Model of `searchAndFlyTo` (map-container.tsx lines 132–156) restricted to
its observable boolean outcome; the map widget commands (`flyTo`, the
highlight timers) are external effects.  The map reference is assumed
present. -/
def searchAndFlyTo (pts : List SurveyPoint) (cellId : String) : Bool :=
  (findExact pts cellId).isSome

/-- Model of `getSuggestions` (map-container.tsx lines 157–161): blank query
yields nothing, otherwise the case-insensitive substring matches of the query
against `cell_id`, sorted by the default `Array.sort()` order. -/
def getSuggestions (pts : List SurveyPoint) (query : String) : List String :=
  if jsTrim query = "" then []
  else
    ((pts.filter (fun p =>
        jsIncludesL (lowerS p.cell_id).data (lowerS query).data)).map
      (fun p => p.cell_id)).insertionSort strLe

/-- The suggestion pipeline as wired in the search box
(search-box.tsx lines 35–47): the input is trimmed, blank input yields no
suggestions, and the result is truncated to the first five entries. -/
def suggest (pts : List SurveyPoint) (query : String) : List String :=
  if jsTrim query = "" then []
  else (getSuggestions pts (jsTrim query)).take 5

/-! ## The search orchestrator (`handleSearchById` in the page component) -/

/-- Observable outcome of `handleSearchById`: the returned boolean, the
user-visible search error, and the URL after the call. -/
structure SearchOutcome where
  success : Bool
  searchError : Option String
  url : Url
deriving DecidableEq, Repr

/-- The not-found message, carrying the original query. -/
def notFoundMsg (cellId : String) : String :=
  "Cell ID \"" ++ cellId ++ "\" not found"

/-- Model of `handleSearchById` (page component, lines 277–300): resolve the
trimmed query through the Point Index; on a miss report the not-found message
and leave the URL alone; on a hit write the trimmed query into the `id`
parameter.  The map reference is assumed present. -/
def handleSearchById (pts : List SurveyPoint) (url : Url) (cellId : String) : SearchOutcome :=
  let found := searchAndFlyTo pts (jsTrim cellId)
  if found then
    { success := true
      searchError := none
      url := updateUrlState url ⟨none, none, none, some (jsTrim cellId)⟩ }
  else
    { success := false, searchError := some (notFoundMsg cellId), url := url }

/-! ## The dataset loader (`loadGeoJSONData`, map-container.tsx 164–181) -/

/-- An element of a `coordinates` array, as far as the loader inspects it:
`Number.isFinite` distinguishes only numbers (JSON numbers are always
finite); nested arrays and objects are collapsed since their contents are
never read. -/
inductive JElem where
  | num (q : ℚ)
  | str (s : String)
  | bool (b : Bool)
  | null
  | arr
  | obj
deriving DecidableEq, Repr

/-- The value of a `coordinates` property after `JSON.parse`: any JSON value
can appear here, not only an array. -/
inductive JVal where
  | num (q : ℚ)
  | str (s : String)
  | bool (b : Bool)
  | null
  | arr (elems : List JElem)
  | obj
deriving DecidableEq, Repr

/-- JavaScript truthiness (`ToBoolean`) of a parsed JSON value. -/
def jvalTruthy : JVal → Bool
  | .num q => decide (q ≠ 0)
  | .str s => decide (s ≠ "")
  | .bool b => b
  | .null => false
  | .arr _ => true
  | .obj => true

/-- The expression `coordinates || []`: the property's value when present and
truthy, the empty array otherwise (also when the property is missing). -/
def orEmptyArr : Option JVal → JVal
  | none => .arr []
  | some v => if jvalTruthy v then v else .arr []

/-- Array destructuring `const [lng, lat] = v` of the first two positions:
arrays and strings are iterable (a string yields its characters as
one-character strings); destructuring any other value throws a `TypeError`
which aborts the whole load.  `none` components model `undefined`. -/
def destructure2 : JVal → Except String (Option JElem × Option JElem)
  | .arr elems => .ok (elems.get? 0, elems.get? 1)
  | .str s =>
    .ok ((s.data.get? 0).map fun c => JElem.str ⟨[c]⟩,
      (s.data.get? 1).map fun c => JElem.str ⟨[c]⟩)
  | _ => .error "TypeError: not iterable"

/-- One element of the `features` array, as far as the loader inspects it:
`geometry.type` (absent when the geometry or its type is missing),
`geometry.coordinates` (an arbitrary JSON value, absent when missing), and
the two identifier properties. -/
structure GFeature where
  geomType : Option String
  coordinates : Option JVal
  propCellId : Option String
  propName : Option String
deriving DecidableEq, Repr

deriving instance DecidableEq for Except

/-- The fetched document after `JSON.parse`: `features` is `none` when the
top level has no `features` array (`!Array.isArray(gj?.features)`). -/
structure GeoDoc where
  features : Option (List GFeature)
deriving DecidableEq, Repr

/-- Processing of the `i`-th feature: a non-`Point` geometry is skipped
before the coordinates are touched; otherwise `coordinates || []` is
destructured (which can throw), and the record is kept only when both
destructured components satisfy `Number.isFinite` — i.e. are JSON numbers —
and skipped otherwise. -/
def featurePoint (i : ℕ) (f : GFeature) : Except String (Option SurveyPoint) :=
  if f.geomType ≠ some "Point" then .ok none
  else
    match destructure2 (orEmptyArr f.coordinates) with
    | .error e => .error e
    | .ok (lngv, latv) =>
      match lngv, latv with
      | some (.num lng), some (.num lat) =>
        .ok (some { id := "point_" ++ natS i
                    lat := lat
                    lng := lng
                    cell_id := f.propCellId.getD (f.propName.getD ("Point_" ++ natS i)) })
      | _, _ => .ok none

/-- The point kept for a record that does not throw (`none` when skipped). -/
def featurePointOk (i : ℕ) (f : GFeature) : Option SurveyPoint :=
  match featurePoint i f with
  | .ok o => o
  | .error _ => none

/-- The `forEach`/`push` accumulation over the features array; a throw in
any record aborts the whole traversal. -/
def buildPointsAux : List (ℕ × GFeature) → List SurveyPoint → Except String (List SurveyPoint)
  | [], acc => .ok acc
  | p :: rest, acc =>
    match featurePoint p.1 p.2 with
    | .error e => .error e
    | .ok none => buildPointsAux rest acc
    | .ok (some pt) => buildPointsAux rest (acc ++ [pt])

/-- All features processed in order with a shared index counter. -/
def buildPoints (fs : List GFeature) : Except String (List SurveyPoint) :=
  buildPointsAux fs.enum []

/-- Model of `loadGeoJSONData` (map-container.tsx lines 164–181) from the
parsed document onwards: a document without a `features` array fails the
whole load; otherwise the records are traversed, skipping malformed ones,
but a record whose truthy coordinates value is not iterable throws during
destructuring and fails the whole load (there is no `try`/`catch` inside
the loader).  Transport-level failures (`!response.ok`, HTML bodies,
`JSON.parse` errors) also throw in the source and are outside this model. -/
def loadGeoJSONData (doc : GeoDoc) : Except String (List SurveyPoint) :=
  match doc.features with
  | none => .error "Invalid GeoJSON format"
  | some fs => buildPoints fs

/-- A sample fetched dataset: ten feature records of which nine are
well-formed and one lacks its coordinates. -/
def sampleFeatures : List GFeature :=
  [⟨some "Point", some (.arr [.num 1, .num 10]), some "A1", none⟩,
   ⟨some "Point", some (.arr [.num 2, .num 20]), some "A23", none⟩,
   ⟨some "Point", some (.arr [.num 3, .num 30]), some "B2", none⟩,
   ⟨some "Point", some (.arr [.num 4, .num 40]), some "B7", none⟩,
   ⟨some "Point", none, some "BAD", none⟩,
   ⟨some "Point", some (.arr [.num 5, .num 50]), some "C1", none⟩,
   ⟨some "Point", some (.arr [.num 6, .num 60]), some "C2", none⟩,
   ⟨some "Point", some (.arr [.num 7, .num 70]), some "D1", none⟩,
   ⟨some "Point", some (.arr [.num 8, .num 80]), none, some "D2"⟩,
   ⟨some "Point", some (.arr [.num 9, .num 90]), none, none⟩]

/-- A feature collection whose second record has a `Point` geometry with the
truthy non-iterable coordinates value `7`. -/
def sampleCrashFeatures : List GFeature :=
  [⟨some "Point", some (.arr [.num 1, .num 10]), some "A1", none⟩,
   ⟨some "Point", some (.num 7), some "A2", none⟩]

/-! ## Auxiliary lemmas: digit characters and decimal rendering -/

/-- The ten decimal digit characters. -/
def digitCharList : List Char := ['0', '1', '2', '3', '4', '5', '6', '7', '8', '9']

theorem digitChar_mem {d : ℕ} (h : d < 10) : digitChar d ∈ digitCharList := by
  interval_cases d <;> decide

theorem charVal_digitChar {d : ℕ} (h : d < 10) : charVal (digitChar d) = d := by
  interval_cases d <;> decide

theorem digit_facts {c : Char} (hc : c ∈ digitCharList) :
    Char.isDigit c = true ∧ isWsChar c = false ∧ c ≠ '/' ∧ c ≠ '_' ∧ c ≠ '-' ∧ c ≠ '+' ∧
      c ≠ 'x' ∧ c ≠ 'X' ∧ c ≠ 'o' ∧ c ≠ 'O' ∧ c ≠ 'b' ∧ c ≠ 'B' ∧ c ≠ 'I' := by
  fin_cases hc <;> decide

theorem natCharsAux_mem {c : Char} :
    ∀ {fuel n : ℕ}, c ∈ natCharsAux fuel n → c ∈ digitCharList := by
  intro fuel
  induction fuel with
  | zero => intro n h; simp [natCharsAux] at h
  | succ fuel ih =>
    intro n h
    by_cases hn : n = 0
    · simp [natCharsAux, hn] at h
    · rw [natCharsAux, if_neg hn] at h
      rcases List.mem_append.mp h with h' | h'
      · exact ih h'
      · rw [List.mem_singleton.mp h']
        exact digitChar_mem (Nat.mod_lt _ (by norm_num))

theorem natChars_mem {c : Char} {n : ℕ} (h : c ∈ natChars n) : c ∈ digitCharList := by
  unfold natChars at h
  by_cases hn : n = 0
  · rw [if_pos hn] at h
    rw [List.mem_singleton.mp h]; decide
  · rw [if_neg hn] at h
    exact natCharsAux_mem h

theorem natChars_ne_nil {n : ℕ} : natChars n ≠ [] := by
  unfold natChars
  by_cases hn : n = 0
  · rw [if_pos hn]; simp
  · rw [if_neg hn]
    have : 0 < n := Nat.pos_of_ne_zero hn
    rw [natCharsAux, if_neg hn]
    simp

theorem natVal_append (xs : List Char) (c : Char) :
    natVal (xs ++ [c]) = 10 * natVal xs + charVal c := by
  simp [natVal, List.foldl_append]

theorem natVal_natCharsAux : ∀ fuel n, n ≤ fuel → natVal (natCharsAux fuel n) = n := by
  intro fuel
  induction fuel with
  | zero => intro n h; interval_cases n; simp [natCharsAux, natVal]
  | succ fuel ih =>
    intro n h
    by_cases hn : n = 0
    · simp [natCharsAux, hn, natVal]
    · have hlt : n / 10 < n := Nat.div_lt_self (Nat.pos_of_ne_zero hn) (by norm_num)
      rw [natCharsAux, if_neg hn, natVal_append, ih (n / 10) (by omega),
        charVal_digitChar (Nat.mod_lt _ (by norm_num))]
      omega

theorem natVal_natChars (n : ℕ) : natVal (natChars n) = n := by
  by_cases hn : n = 0
  · rw [hn]; decide
  · rw [natChars, if_neg hn]
    exact natVal_natCharsAux (n + 1) n (by omega)

/-! ## Parsing a rendered integer recovers it -/

theorem jsTrimL_eq_self {cs : List Char} (h : ∀ c ∈ cs, isWsChar c = false) :
    jsTrimL cs = cs := by
  unfold jsTrimL
  have h1 : cs.dropWhile isWsChar = cs := by
    cases cs with
    | nil => rfl
    | cons a t => simp [List.dropWhile_cons, h a (by simp)]
  rw [h1]
  rw [List.rdropWhile_eq_self_iff]
  intro hl
  simp [h _ (List.getLast_mem hl)]

theorem parseDec_digits {cs : List Char} (hne : cs ≠ [])
    (h : ∀ c ∈ cs, Char.isDigit c = true) :
    parseDec cs = .fin ((natVal cs : ℕ) : ℚ) := by
  have ht : cs.takeWhile Char.isDigit = cs := List.takeWhile_eq_self_iff.mpr h
  have hd : cs.dropWhile Char.isDigit = [] := by
    rw [List.dropWhile_eq_nil_iff]
    exact fun x hx => by simp [h x hx]
  simp only [parseDec, ht, hd]
  simp [List.isEmpty_iff, hne]

theorem parseUnsigned_digits {cs : List Char} (hne : cs ≠ [])
    (h : ∀ c ∈ cs, c ∈ digitCharList) :
    parseUnsigned cs = .fin ((natVal cs : ℕ) : ℚ) := by
  have hinf : cs ≠ infinityChars := by
    intro e
    have : 'I' ∈ cs := by rw [e]; decide
    exact absurd (digit_facts (h 'I' this)).1 (by decide)
  rw [parseUnsigned, if_neg hinf]
  exact parseDec_digits hne fun c hc => (digit_facts (h c hc)).1

theorem parseSigned_digits {cs : List Char} (hne : cs ≠ [])
    (h : ∀ c ∈ cs, c ∈ digitCharList) :
    parseSigned cs = .fin ((natVal cs : ℕ) : ℚ) := by
  cases cs with
  | nil => exact absurd rfl hne
  | cons c r =>
    obtain ⟨-, -, -, -, hm, hp, -⟩ := digit_facts (h c (by simp))
    rw [parseSigned, if_neg hm, if_neg hp]
    exact parseUnsigned_digits hne h

theorem parseNumLit_digits {cs : List Char} (hne : cs ≠ [])
    (h : ∀ c ∈ cs, c ∈ digitCharList) :
    parseNumLit cs = .fin ((natVal cs : ℕ) : ℚ) := by
  cases cs with
  | nil => exact absurd rfl hne
  | cons c0 t =>
    cases t with
    | nil =>
      show parseSigned [c0] = _
      exact parseSigned_digits (by simp) h
    | cons c1 t2 =>
      obtain ⟨-, -, -, -, -, -, hx, hX, ho, hO, hb, hB, -⟩ := digit_facts (h c1 (by simp))
      show (if c0 = '0' then _ else _) = _
      by_cases h0 : c0 = '0'
      · rw [if_pos h0, if_neg (by simp [hx, hX]), if_neg (by simp [ho, hO]),
          if_neg (by simp [hb, hB])]
        exact parseSigned_digits (by simp) h
      · rw [if_neg h0]
        exact parseSigned_digits (by simp) h

theorem jsNumberL_digits {cs : List Char} (hne : cs ≠ [])
    (h : ∀ c ∈ cs, c ∈ digitCharList) :
    jsNumberL cs = .fin ((natVal cs : ℕ) : ℚ) := by
  have htrim : jsTrimL cs = cs :=
    jsTrimL_eq_self fun c hc => (digit_facts (h c hc)).2.1
  rw [jsNumberL, htrim]
  simp only [List.isEmpty_iff, hne, if_false, ite_false]
  exact parseNumLit_digits hne h

theorem jsNumberL_natChars (n : ℕ) : jsNumberL (natChars n) = .fin ((n : ℕ) : ℚ) := by
  rw [jsNumberL_digits natChars_ne_nil fun c hc => natChars_mem hc, natVal_natChars]

theorem intChars_mem {c : Char} {z : ℤ} (h : c ∈ intChars z) :
    c = '-' ∨ c ∈ digitCharList := by
  unfold intChars at h
  by_cases hz : z < 0
  · rw [if_pos hz] at h
    rcases List.mem_cons.mp h with h' | h'
    · exact Or.inl h'
    · exact Or.inr (natChars_mem h')
  · rw [if_neg hz] at h
    exact Or.inr (natChars_mem h)

theorem jsNumberL_intChars (z : ℤ) : jsNumberL (intChars z) = .fin ((z : ℤ) : ℚ) := by
  unfold intChars
  by_cases hz : z < 0
  · rw [if_pos hz]
    obtain ⟨c1, rest, hcr⟩ : ∃ c1 rest, natChars z.natAbs = c1 :: rest := by
      cases h' : natChars z.natAbs with
      | nil => exact absurd h' natChars_ne_nil
      | cons a b => exact ⟨a, b, rfl⟩
    have hnows : ∀ c ∈ '-' :: natChars z.natAbs, isWsChar c = false := by
      intro c hc
      rcases List.mem_cons.mp hc with h' | h'
      · rw [h']; decide
      · exact (digit_facts (natChars_mem h')).2.1
    rw [jsNumberL, jsTrimL_eq_self hnows]
    simp only [List.isEmpty_cons, if_false, ite_false]
    rw [hcr]
    have hsw : parseNumLit ('-' :: c1 :: rest) = parseSigned ('-' :: c1 :: rest) := by
      have h0 : ('-' : Char) ≠ '0' := by decide
      simp only [parseNumLit, if_neg h0]
    rw [hsw, parseSigned, if_pos rfl, ← hcr,
      parseUnsigned_digits natChars_ne_nil fun c hc => natChars_mem hc, natVal_natChars]
    show JSNum.fin (-((z.natAbs : ℕ) : ℚ)) = JSNum.fin ((z : ℤ) : ℚ)
    congr 1
    rw [Int.cast_natAbs, abs_of_neg hz]
    push_cast
    ring
  · rw [if_neg hz, jsNumberL_natChars]
    congr 1
    rw [Int.cast_natAbs, abs_of_nonneg (not_lt.mp hz)]

/-! ## Splitting lemmas -/

theorem splitOnChar_ne_nil (sep : Char) : ∀ cs, splitOnChar sep cs ≠ [] := by
  intro cs
  induction cs with
  | nil => simp [splitOnChar]
  | cons c t ih =>
    rw [splitOnChar]
    by_cases h : c = sep
    · simp [h]
    · rw [if_neg h]
      cases hs : splitOnChar sep t with
      | nil => simp
      | cons r rs => simp

theorem splitOnChar_no_sep {sep : Char} :
    ∀ {cs}, (∀ c ∈ cs, c ≠ sep) → splitOnChar sep cs = [cs] := by
  intro cs
  induction cs with
  | nil => intro _; rfl
  | cons c t ih =>
    intro h
    rw [splitOnChar, if_neg (h c (by simp)), ih fun x hx => h x (by simp [hx])]

theorem splitOnChar_append {sep : Char} :
    ∀ {a : List Char} (b : List Char), (∀ c ∈ a, c ≠ sep) →
      splitOnChar sep (a ++ sep :: b) = a :: splitOnChar sep b := by
  intro a
  induction a with
  | nil =>
    intro b _
    rw [List.nil_append, splitOnChar, if_pos rfl]
  | cons c t ih =>
    intro b h
    rw [List.cons_append, splitOnChar, if_neg (h c (by simp)),
      ih b fun x hx => h x (by simp [hx])]

theorem intChars_safe {c : Char} {z : ℤ} (h : c ∈ intChars z) : c ≠ '_' ∧ c ≠ '/' := by
  rcases intChars_mem h with h' | h'
  · rw [h']; exact ⟨by decide, by decide⟩
  · obtain ⟨-, -, h1, h2, -⟩ := digit_facts h'
    exact ⟨h2, h1⟩

theorem charList_contains_false {l : List Char} {a : Char} (h : ∀ c ∈ l, c ≠ a) :
    l.contains a = false := by
  cases hc : l.elem a with
  | false => exact hc
  | true => exact absurd rfl (h a (List.elem_iff.mp hc))

/-! ## Positional fields and cellId decompose independently -/

theorem parseUrlState_positional (lh : String) (ps : List (String × String)) :
    (parseUrlState lh ps).zoom = (parseUrlState lh []).zoom
    ∧ (parseUrlState lh ps).lat = (parseUrlState lh []).lat
    ∧ (parseUrlState lh ps).lng = (parseUrlState lh []).lng := by
  unfold parseUrlState
  rcases h : getParam ps "id" with - | c
  · simp [getParam]
  · by_cases hc : c ≠ ""
    · simp [getParam, h, hc]
    · simp [getParam, h, hc]

theorem parseUrlState_cellId (lh : String) (ps : List (String × String)) :
    (parseUrlState lh ps).cellId = cellIdOfParams ps := by
  unfold parseUrlState cellIdOfParams
  have hs1 : ∀ s1 : ParsedState, s1.cellId = none →
      (match getParam ps "id" with
        | some c => if c ≠ "" then { s1 with cellId := some (jsTrim c) } else s1
        | none => s1).cellId =
      (match getParam ps "id" with
        | some c => if c ≠ "" then some (jsTrim c) else none
        | none => none) := by
    intro s1 h1
    rcases getParam ps "id" with - | c
    · exact h1
    · by_cases hc : c ≠ ""
      · simp [hc]
      · simp [hc, h1]
  apply hs1
  repeat' split
  all_goals rfl

/-! ## Parsing the compact fragment produced by the store -/

theorem compactHash_data (z a b : ℤ) :
    (compactHash z a b).data =
      '#' :: 'm' :: 'a' :: 'p' :: '_' ::
        (intChars z ++ '_' :: (intChars a ++ '_' :: intChars b)) := by
  simp [compactHash, intS]

theorem parseUrlState_compactHash_nil (z a b : ℤ) :
    parseUrlState (compactHash z a b) [] =
      { zoom := some (.fin (z : ℚ)), lat := some (.fin ((a : ℚ) / 100000)),
        lng := some (.fin ((b : ℚ) / 100000)), cellId := none } := by
  have hsafe : ∀ z' : ℤ, ∀ c ∈ intChars z', c ≠ '_' := fun z' c hc => (intChars_safe hc).1
  have hsplit : splitOnChar '_' (intChars z ++ '_' :: (intChars a ++ '_' :: intChars b)) =
      [intChars z, intChars a, intChars b] := by
    rw [splitOnChar_append _ (hsafe z), splitOnChar_append _ (hsafe a),
      splitOnChar_no_sep (hsafe b)]
  have hnoslash : ('m' :: 'a' :: 'p' :: '_' ::
      (intChars z ++ '_' :: (intChars a ++ '_' :: intChars b))).contains '/' = false := by
    apply charList_contains_false
    intro c hc
    rcases List.mem_cons.mp hc with rfl | hc
    · decide
    rcases List.mem_cons.mp hc with rfl | hc
    · decide
    rcases List.mem_cons.mp hc with rfl | hc
    · decide
    rcases List.mem_cons.mp hc with rfl | hc
    · decide
    rcases List.mem_append.mp hc with hc | hc
    · exact (intChars_safe hc).2
    rcases List.mem_cons.mp hc with rfl | hc
    · decide
    rcases List.mem_append.mp hc with hc | hc
    · exact (intChars_safe hc).2
    rcases List.mem_cons.mp hc with rfl | hc
    · decide
    · exact (intChars_safe hc).2
  have hpre : mapTagChars.isPrefixOf ('m' :: 'a' :: 'p' :: '_' ::
      (intChars z ++ '_' :: (intChars a ++ '_' :: intChars b))) = true := by
    rw [ List.isPrefixOf_iff_prefix]
    exact ⟨intChars z ++ '_' :: (intChars a ++ '_' :: intChars b), rfl⟩
  unfold parseUrlState
  simp only [getParam, List.find?_nil, Option.map_none']
  rw [compactHash_data]
  simp only [List.drop_succ_cons, List.drop_zero]
  rw [if_neg (by simp), if_neg (by rw [hnoslash]; exact Bool.false_ne_true), if_pos hpre]
  simp only [List.drop_succ_cons, List.drop_zero, hsplit]
  rw [jsNumberL_intChars, jsNumberL_intChars, jsNumberL_intChars]
  simp [jsIsNaN, jsDiv, emptyParsed]

/-! ## Rounding lemmas -/

theorem jsRound_eq_floor (q : ℚ) : jsRound q = ⌊q + 1/2⌋ := rfl

theorem jsRound_intCast (z : ℤ) : jsRound ((z : ℤ) : ℚ) = z := by
  rw [jsRound_eq_floor, Int.floor_int_add]
  norm_num

theorem jsRound_near (q : ℚ) : |((jsRound q : ℤ) : ℚ) - q| ≤ 1/2 := by
  have h1 : ((jsRound q : ℤ) : ℚ) ≤ q + 1/2 := by
    rw [jsRound_eq_floor]
    exact Int.floor_le _
  have h2 : q + 1/2 - 1 < ((jsRound q : ℤ) : ℚ) := by
    rw [jsRound_eq_floor]
    exact Int.sub_one_lt_floor _
  rw [abs_le]
  constructor <;> linarith

/-! ## Claim theorems -/

/-- C1: round-trip of the coordinate codec.  For every zoom in `[0, 22]`,
latitude in `[-90, 90]` and longitude in `[-180, 180]`, writing the state
with `updateUrlState` and decoding the resulting URL with `parseUrlState`
recovers the zoom exactly, and recovers latitude and longitude (as the
dequantised integers) each within `1e-5` degrees of the original value. -/
theorem C1_roundtrip_codec (u : Url) (z : ℤ) (lat lng : ℚ)
    (hz0 : 0 ≤ z) (hz1 : z ≤ 22) (hlat0 : -90 ≤ lat) (hlat1 : lat ≤ 90)
    (hlng0 : -180 ≤ lng) (hlng1 : lng ≤ 180) :
    (parseUrlState (updateUrlState u ⟨some ((z : ℤ) : ℚ), some lat, some lng, none⟩).hash
        (updateUrlState u ⟨some ((z : ℤ) : ℚ), some lat, some lng, none⟩).params).zoom
      = some (.fin ((z : ℤ) : ℚ))
    ∧ (parseUrlState (updateUrlState u ⟨some ((z : ℤ) : ℚ), some lat, some lng, none⟩).hash
        (updateUrlState u ⟨some ((z : ℤ) : ℚ), some lat, some lng, none⟩).params).lat
      = some (.fin ((jsRound (lat * 100000) : ℤ) / 100000 : ℚ))
    ∧ |((jsRound (lat * 100000) : ℤ) / 100000 : ℚ) - lat| ≤ 1 / 100000
    ∧ (parseUrlState (updateUrlState u ⟨some ((z : ℤ) : ℚ), some lat, some lng, none⟩).hash
        (updateUrlState u ⟨some ((z : ℤ) : ℚ), some lat, some lng, none⟩).params).lng
      = some (.fin ((jsRound (lng * 100000) : ℤ) / 100000 : ℚ))
    ∧ |((jsRound (lng * 100000) : ℤ) / 100000 : ℚ) - lng| ≤ 1 / 100000 := by
  have hupd : updateUrlState u ⟨some ((z : ℤ) : ℚ), some lat, some lng, none⟩ =
      { u with
        hash := (compactHash (jsRound ((z : ℤ) : ℚ)) (jsRound (lat * 100000))
          (jsRound (lng * 100000))) } := rfl
  rw [hupd]
  obtain ⟨hz, hla, hln⟩ :=
    parseUrlState_positional
      (compactHash (jsRound ((z : ℤ) : ℚ)) (jsRound (lat * 100000)) (jsRound (lng * 100000)))
      u.params
  have hnil := parseUrlState_compactHash_nil (jsRound ((z : ℤ) : ℚ)) (jsRound (lat * 100000))
    (jsRound (lng * 100000))
  have hbound : ∀ q : ℚ, |((jsRound (q * 100000) : ℤ) / 100000 : ℚ) - q| ≤ 1 / 100000 := by
    intro q
    have h := jsRound_near (q * 100000)
    rw [abs_le] at h ⊢
    obtain ⟨ha, hb⟩ := h
    constructor <;> linarith
  refine ⟨?_, ?_, hbound lat, ?_, hbound lng⟩
  · rw [hz, hnil, jsRound_intCast]
  · rw [hla, hnil]
  · rw [hln, hnil]

/-- C1 witness: the round trip at zoom 16, the New-York-ish coordinates
`(40.7128, -74.006)`, with all hypotheses discharged concretely. -/
theorem C1_roundtrip_codec_witness :
    (parseUrlState (updateUrlState ⟨"", []⟩
        ⟨some ((16 : ℤ) : ℚ), some 40.7128, some (-74.006), none⟩).hash
        (updateUrlState ⟨"", []⟩
        ⟨some ((16 : ℤ) : ℚ), some 40.7128, some (-74.006), none⟩).params).zoom
      = some (.fin ((16 : ℤ) : ℚ))
    ∧ (parseUrlState (updateUrlState ⟨"", []⟩
        ⟨some ((16 : ℤ) : ℚ), some 40.7128, some (-74.006), none⟩).hash
        (updateUrlState ⟨"", []⟩
        ⟨some ((16 : ℤ) : ℚ), some 40.7128, some (-74.006), none⟩).params).lat
      = some (.fin ((jsRound ((40.7128 : ℚ) * 100000) : ℤ) / 100000 : ℚ))
    ∧ |((jsRound ((40.7128 : ℚ) * 100000) : ℤ) / 100000 : ℚ) - 40.7128| ≤ 1 / 100000
    ∧ (parseUrlState (updateUrlState ⟨"", []⟩
        ⟨some ((16 : ℤ) : ℚ), some 40.7128, some (-74.006), none⟩).hash
        (updateUrlState ⟨"", []⟩
        ⟨some ((16 : ℤ) : ℚ), some 40.7128, some (-74.006), none⟩).params).lng
      = some (.fin ((jsRound ((-74.006 : ℚ) * 100000) : ℤ) / 100000 : ℚ))
    ∧ |((jsRound ((-74.006 : ℚ) * 100000) : ℤ) / 100000 : ℚ) - (-74.006)| ≤ 1 / 100000 :=
  C1_roundtrip_codec ⟨"", []⟩ 16 40.7128 (-74.006) (by norm_num) (by norm_num)
    (by norm_num) (by norm_num) (by norm_num) (by norm_num)

theorem compactHash_no_slash (z a b : ℤ) : (compactHash z a b).data.contains '/' = false := by
  rw [compactHash_data]
  apply charList_contains_false
  intro c hc
  rcases List.mem_cons.mp hc with rfl | hc
  · decide
  rcases List.mem_cons.mp hc with rfl | hc
  · decide
  rcases List.mem_cons.mp hc with rfl | hc
  · decide
  rcases List.mem_cons.mp hc with rfl | hc
  · decide
  rcases List.mem_cons.mp hc with rfl | hc
  · decide
  rcases List.mem_append.mp hc with hc | hc
  · exact (intChars_safe hc).2
  rcases List.mem_cons.mp hc with rfl | hc
  · decide
  rcases List.mem_append.mp hc with hc | hc
  · exact (intChars_safe hc).2
  rcases List.mem_cons.mp hc with rfl | hc
  · decide
  · exact (intChars_safe hc).2

/-- C3: the View-State Store only ever emits the compact fragment format.
Whenever the partial state passed to `updateUrlState` contains zoom, lat and
lng, the fragment written to the URL is exactly
`#map_<zoom>_<latInt>_<lngInt>`; in particular it starts with `#map_` and
contains no slash, so the legacy form is never written. -/
theorem C3_compact_only (url : Url) (ns : UpdState) (z la ln : ℚ)
    (hz : ns.zoom = some z) (hla : ns.lat = some la) (hln : ns.lng = some ln) :
    (updateUrlState url ns).hash =
      compactHash (jsRound z) (jsRound (la * 100000)) (jsRound (ln * 100000))
    ∧ List.isPrefixOf "#map_".data (updateUrlState url ns).hash.data = true
    ∧ (updateUrlState url ns).hash.data.contains '/' = false := by
  have hhash : (updateUrlState url ns).hash =
      compactHash (jsRound z) (jsRound (la * 100000)) (jsRound (ln * 100000)) := by
    unfold updateUrlState
    rw [hz, hla, hln]
    rcases ns.cellId with - | c
    · rfl
    · by_cases hc : c ≠ ""
      · simp [hc]
      · simp [hc]
  refine ⟨hhash, ?_, ?_⟩
  · rw [hhash, List.isPrefixOf_iff_prefix, compactHash_data]
    exact ⟨intChars (jsRound z) ++ '_' :: (intChars (jsRound (la * 100000)) ++ '_' ::
      intChars (jsRound (ln * 100000))), rfl⟩
  · rw [hhash]
    exact compactHash_no_slash _ _ _

/-- C3 witness: an update over a URL currently holding a legacy fragment
rewrites it to the compact form. -/
theorem C3_compact_only_witness :
    (updateUrlState ⟨"#4/1/2", [("id", "A23")]⟩
        ⟨some 16, some 40.7128, some (-74.006), none⟩).hash =
      compactHash (jsRound 16) (jsRound ((40.7128 : ℚ) * 100000))
        (jsRound ((-74.006 : ℚ) * 100000))
    ∧ List.isPrefixOf "#map_".data (updateUrlState ⟨"#4/1/2", [("id", "A23")]⟩
        ⟨some 16, some 40.7128, some (-74.006), none⟩).hash.data = true
    ∧ (updateUrlState ⟨"#4/1/2", [("id", "A23")]⟩
        ⟨some 16, some 40.7128, some (-74.006), none⟩).hash.data.contains '/' = false :=
  C3_compact_only ⟨"#4/1/2", [("id", "A23")]⟩
    ⟨some 16, some 40.7128, some (-74.006), none⟩ 16 40.7128 (-74.006) rfl rfl rfl

theorem jsIsNaN_jsDiv (x : JSNum) (d : ℚ) : jsIsNaN (jsDiv x d) = jsIsNaN x := by
  cases x <;> rfl

/-- C2 counterexample to the claim as stated: the fragment `Infinity/0/0`
has a legacy part that does not parse as a finite number, so the claim calls
it malformed and demands an empty result; but the decoder's guard only
rejects NaN, so it applies `zoom = Infinity` (with `lat = lng = 0`). -/
theorem C2_counterexample :
    specFragmentMalformedStated "#Infinity/0/0" = true
    ∧ jsIsFinite (jsNumber "Infinity") = false
    ∧ (parseUrlState "#Infinity/0/0" []).zoom = some JSNum.inf
    ∧ (parseUrlState "#Infinity/0/0" []).zoom ≠ none := by
  refine ⟨by decide, by decide, by decide, by decide⟩

/-- C2 (amended): fragment decoding is total and all-or-nothing.  The three
positional fields are always either all present or all absent, and whenever
the fragment is malformed — wrong part count in either form, a part parsing
as NaN (parts parsing to ±Infinity are accepted by the guard), or an unknown
format — all three positional fields are absent. -/
theorem C2_decode_total_amended (lh : String) (ps : List (String × String)) :
    ((parseUrlState lh ps).zoom.isSome = (parseUrlState lh ps).lat.isSome
      ∧ (parseUrlState lh ps).lat.isSome = (parseUrlState lh ps).lng.isSome)
    ∧ (specFragmentMalformed lh = true →
        (parseUrlState lh ps).zoom = none ∧ (parseUrlState lh ps).lat = none
          ∧ (parseUrlState lh ps).lng = none) := by
  obtain ⟨hz, hla, hln⟩ := parseUrlState_positional lh ps
  rw [hz, hla, hln]
  unfold parseUrlState specFragmentMalformed
  simp only [getParam, List.find?_nil, Option.map_none']
  by_cases h0 : (lh.data.drop 1).isEmpty = true
  · rw [if_pos h0, if_pos h0]
    exact ⟨⟨rfl, rfl⟩, fun hf => absurd hf (by decide)⟩
  · rw [if_neg h0, if_neg h0]
    by_cases h1 : (lh.data.drop 1).contains '/' = true
    · rw [if_pos h1, if_pos h1]
      rcases hp : splitOnChar '/' (lh.data.drop 1) with - | ⟨p0, t0⟩
      · exact absurd hp (splitOnChar_ne_nil '/' _)
      rcases t0 with - | ⟨p1, t1⟩
      · simp [emptyParsed]
      rcases t1 with - | ⟨p2, t2⟩
      · simp [emptyParsed]
      rcases t2 with - | ⟨p3, t3⟩
      · dsimp only
        by_cases hg : (!jsIsNaN (jsNumberL p0) && !jsIsNaN (jsNumberL p1)
            && !jsIsNaN (jsNumberL p2)) = true
        · rw [if_pos hg]
          simp only [Bool.and_eq_true, Bool.not_eq_true'] at hg
          obtain ⟨⟨g0, g1⟩, g2⟩ := hg
          simp [emptyParsed, g0, g1, g2]
        · rw [if_neg hg]
          simp [emptyParsed]
      · simp [emptyParsed]
    · rw [if_neg h1, if_neg h1]
      by_cases h2 : mapTagChars.isPrefixOf (lh.data.drop 1) = true
      · rw [if_pos h2, if_pos h2]
        rcases hp : splitOnChar '_' ((lh.data.drop 1).drop 4) with - | ⟨p0, t0⟩
        · exact absurd hp (splitOnChar_ne_nil '_' _)
        rcases t0 with - | ⟨p1, t1⟩
        · simp [emptyParsed]
        rcases t1 with - | ⟨p2, t2⟩
        · simp [emptyParsed]
        rcases t2 with - | ⟨p3, t3⟩
        · dsimp only
          by_cases hg : (!jsIsNaN (jsNumberL p0) && !jsIsNaN (jsDiv (jsNumberL p1) 100000)
              && !jsIsNaN (jsDiv (jsNumberL p2) 100000)) = true
          · rw [if_pos hg]
            simp only [Bool.and_eq_true, Bool.not_eq_true', jsIsNaN_jsDiv] at hg
            obtain ⟨⟨g0, g1⟩, g2⟩ := hg
            simp [emptyParsed, g0, g1, g2]
          · rw [if_neg hg]
            simp [emptyParsed]
        · simp [emptyParsed]
      · rw [if_neg h2, if_neg h2]
        simp [emptyParsed]

/-- C2 witness: the three malformed fragments named by the specification all
decode to an entirely empty positional state. -/
theorem C2_decode_total_amended_witness :
    ((parseUrlState "#garbage" []).zoom = none ∧ (parseUrlState "#garbage" []).lat = none
      ∧ (parseUrlState "#garbage" []).lng = none)
    ∧ ((parseUrlState "#map_1_2" []).zoom = none ∧ (parseUrlState "#map_1_2" []).lat = none
      ∧ (parseUrlState "#map_1_2" []).lng = none)
    ∧ ((parseUrlState "#1/2" []).zoom = none ∧ (parseUrlState "#1/2" []).lat = none
      ∧ (parseUrlState "#1/2" []).lng = none) :=
  ⟨(C2_decode_total_amended "#garbage" []).2 (by decide),
    (C2_decode_total_amended "#map_1_2" []).2 (by decide),
    (C2_decode_total_amended "#1/2" []).2 (by decide)⟩

/-- C10: implicit edge case of legacy fragment decoding.  Empty (and
whitespace-only) slash-form parts coerce to the number `0` rather than being
rejected, because `Number("") = 0` passes the NaN check: decoding `"//"`
yields zoom 0, lat 0, lng 0 instead of an empty result. -/
theorem C10_empty_parts_coerce :
    jsNumber "" = .fin 0
    ∧ jsNumber " " = .fin 0
    ∧ parseUrlState "#//" [] =
        { zoom := some (.fin 0), lat := some (.fin 0), lng := some (.fin 0), cellId := none }
    ∧ parseUrlState "# / / " [] =
        { zoom := some (.fin 0), lat := some (.fin 0), lng := some (.fin 0), cellId := none } :=
  ⟨by decide, by decide, by decide, by decide⟩

/-- C8 counterexample to the claim as stated: a whitespace-only `id` value is
truthy, so the decoder stores its trim — the *empty-string* cellId — rather
than leaving the field absent as the claim demands. -/
theorem C8_counterexample :
    jsTrim " " = ""
    ∧ (parseUrlState "" [("id", " ")]).cellId = some ""
    ∧ (parseUrlState "" [("id", " ")]).cellId ≠ none :=
  ⟨by decide, by decide, by decide⟩

/-- C8 (amended): the decoded cellId is the value of the `id` parameter with
surrounding whitespace trimmed; it is absent when the parameter is missing or
its raw value is the empty string.  A whitespace-only value however yields
the present empty-string cellId (its trim), not an absent field. -/
theorem C8_cellid_decode_amended (lh : String) (ps : List (String × String)) :
    (getParam ps "id" = none → (parseUrlState lh ps).cellId = none)
    ∧ (getParam ps "id" = some "" → (parseUrlState lh ps).cellId = none)
    ∧ ∀ v, getParam ps "id" = some v → v ≠ "" →
        (parseUrlState lh ps).cellId = some (jsTrim v) := by
  rw [parseUrlState_cellId]
  refine ⟨fun h => by simp [cellIdOfParams, h], fun h => by simp [cellIdOfParams, h],
    fun v hv hne => by simp [cellIdOfParams, hv, hne]⟩

/-- C8 witness: missing parameter, empty raw value, and a padded value. -/
theorem C8_cellid_decode_amended_witness :
    (parseUrlState "" []).cellId = none
    ∧ (parseUrlState "" [("id", "")]).cellId = none
    ∧ (parseUrlState "" [("id", " A23 ")]).cellId = some (jsTrim " A23 ") :=
  ⟨(C8_cellid_decode_amended "" []).1 (by decide),
    (C8_cellid_decode_amended "" [("id", "")]).2.1 (by decide),
    (C8_cellid_decode_amended "" [("id", " A23 ")]).2.2 " A23 " (by decide) (by decide)⟩

/-! ## First-match characterisation of `List.find?` -/

theorem find?_first_spec {α : Type} (P : α → Bool) :
    ∀ (l : List α) (x : α), l.find? P = some x →
      P x = true ∧ ∃ i, ∃ h : i < l.length, l.get ⟨i, h⟩ = x ∧
        ∀ j, ∀ hj : j < l.length, j < i → P (l.get ⟨j, hj⟩) = false := by
  intro l
  induction l with
  | nil => intro x h; simp at h
  | cons a t ih =>
    intro x h
    by_cases ha : P a = true
    · rw [List.find?_cons_of_pos _ ha] at h
      obtain rfl : a = x := by simpa using h
      refine ⟨ha, 0, by simp, rfl, ?_⟩
      intro j hj hj0
      omega
    · rw [List.find?_cons_of_neg _ (by simpa using ha)] at h
      obtain ⟨hx, i, hi, hget, hbefore⟩ := ih x h
      refine ⟨hx, i + 1, by simpa using Nat.succ_lt_succ hi, by simpa using hget, ?_⟩
      intro j hj hj1
      cases j with
      | zero => simpa using ha
      | succ k =>
        have hk : k < t.length := by simpa using hj
        have := hbefore k hk (by omega)
        simpa using this

/-- C4: exact lookup.  `findExact` compares the query against each point's
cellId case-insensitively; when it returns a point, that point matches and is
the first match in index order; when it returns nothing, no point matches. -/
theorem C4_findExact_spec (pts : List SurveyPoint) (q : String) :
    (findExact pts q = none → ∀ p ∈ pts, (lowerS p.cell_id == lowerS q) = false)
    ∧ ∀ p, findExact pts q = some p →
        (lowerS p.cell_id == lowerS q) = true
        ∧ ∃ i, ∃ h : i < pts.length, pts.get ⟨i, h⟩ = p
          ∧ ∀ j, ∀ hj : j < pts.length, j < i →
              (lowerS (pts.get ⟨j, hj⟩).cell_id == lowerS q) = false := by
  constructor
  · intro h p hp
    have := List.find?_eq_none.mp h p hp
    simpa using this
  · intro p hp
    exact find?_first_spec _ pts p hp

/-- C4 witness: the lookup is case-insensitive (`"a23"` finds `"A23"`), and a
non-matching query is rejected against every point. -/
theorem C4_findExact_spec_witness :
    (lowerS (SurveyPoint.mk "p0" 1 2 "A23").cell_id == lowerS "B7") = false
    ∧ findExact [SurveyPoint.mk "p0" 1 2 "A23"] "a23" = some (SurveyPoint.mk "p0" 1 2 "A23") :=
  ⟨(C4_findExact_spec [SurveyPoint.mk "p0" 1 2 "A23"] "B7").1 (by decide)
      (SurveyPoint.mk "p0" 1 2 "A23") (by simp),
    by decide⟩

/-! ## Parameter update and trim idempotence -/

theorem getParam_setParam (ps : List (String × String)) (k v : String) :
    getParam (setParam ps k v) k = some v := by
  induction ps with
  | nil => simp [setParam, getParam]
  | cons kv rest ih =>
    obtain ⟨k', v'⟩ := kv
    rw [setParam]
    by_cases hk : k' = k
    · rw [if_pos hk]
      simp [getParam]
    · rw [if_neg hk]
      rw [getParam, List.find?_cons_of_neg _ (by simpa using hk)]
      exact ih

theorem jsTrimL_idem (cs : List Char) : jsTrimL (jsTrimL cs) = jsTrimL cs := by
  unfold jsTrimL
  rcases hz : (cs.dropWhile isWsChar).rdropWhile isWsChar with - | ⟨c, t⟩
  · simp
  · have hpre := List.rdropWhile_prefix isWsChar (cs.dropWhile isWsChar)
    rw [hz] at hpre
    obtain ⟨t2, ht2⟩ := hpre
    have hdw : cs.dropWhile isWsChar = c :: (t ++ t2) := by
      rw [← ht2]
      simp
    have hne : cs.dropWhile isWsChar ≠ [] := by
      rw [hdw]
      simp
    have hh := List.head_dropWhile_not isWsChar cs hne
    have hc : isWsChar c = false := by
      simp only [hdw, List.head_cons] at hh
      simpa using hh
    rw [List.dropWhile_cons, if_neg (by simp [hc])]
    have hid := List.rdropWhile_idempotent isWsChar (cs.dropWhile isWsChar)
    rw [hz] at hid
    exact hid

theorem jsTrim_idem (s : String) : jsTrim (jsTrim s) = jsTrim s :=
  congrArg String.mk (jsTrimL_idem s.data)

/-- C6: not-found search is atomic.  When no loaded point matches the trimmed
query case-insensitively, `handleSearchById` returns false, surfaces the
not-found message carrying the original query, and leaves the URL (in
particular its `id` parameter) entirely unchanged. -/
theorem C6_notfound_atomic (pts : List SurveyPoint) (url : Url) (q : String)
    (h : ∀ p ∈ pts, (lowerS p.cell_id == lowerS (jsTrim q)) = false) :
    handleSearchById pts url q =
      { success := false, searchError := some (notFoundMsg q), url := url } := by
  have hfind : findExact pts (jsTrim q) = none :=
    List.find?_eq_none.mpr fun x hx => by simp [h x hx]
  unfold handleSearchById searchAndFlyTo
  rw [hfind]
  rfl

/-- C6 witness: searching `Z99` against a dataset holding only `A23` fails,
reports the message, and leaves the URL as it was. -/
theorem C6_notfound_atomic_witness :
    handleSearchById [SurveyPoint.mk "p0" 1 2 "A23"] ⟨"#x", [("q", "1")]⟩ "Z99" =
      { success := false, searchError := some (notFoundMsg "Z99"),
        url := ⟨"#x", [("q", "1")]⟩ } :=
  C6_notfound_atomic [SurveyPoint.mk "p0" 1 2 "A23"] ⟨"#x", [("q", "1")]⟩ "Z99" (by decide)

/-- C7 counterexample to the claim as stated: the query `"a23"` resolves to
the point with cellId `"A23"`, the search succeeds, but the store receives
the trimmed *query* `"a23"`, so the subsequent parse yields `"a23"`, not the
resolved point's cellId `"A23"`. -/
theorem C7_counterexample :
    (handleSearchById [SurveyPoint.mk "p0" 1 2 "A23"] ⟨"", []⟩ "a23").success = true
    ∧ (parseUrlState (handleSearchById [SurveyPoint.mk "p0" 1 2 "A23"] ⟨"", []⟩ "a23").url.hash
        (handleSearchById [SurveyPoint.mk "p0" 1 2 "A23"] ⟨"", []⟩ "a23").url.params).cellId
      = some "a23"
    ∧ (SurveyPoint.mk "p0" 1 2 "A23").cell_id = "A23"
    ∧ ("a23" : String) ≠ "A23" :=
  ⟨by decide, by decide, rfl, by decide⟩

/-- C7 (amended): successful search propagates the trimmed query.  When the
trimmed query is non-empty and matches some point case-insensitively, the
search returns true and writes the trimmed query into the `id` parameter, so
a subsequent parse of the resulting URL yields exactly the trimmed query
(which equals the resolved point's cellId only up to case). -/
theorem C7_found_search_amended (pts : List SurveyPoint) (url : Url) (q : String)
    (hne : jsTrim q ≠ "") (p : SurveyPoint) (hp : p ∈ pts)
    (hmatch : (lowerS p.cell_id == lowerS (jsTrim q)) = true) :
    (handleSearchById pts url q).success = true
    ∧ getParam (handleSearchById pts url q).url.params "id" = some (jsTrim q)
    ∧ (parseUrlState (handleSearchById pts url q).url.hash
        (handleSearchById pts url q).url.params).cellId = some (jsTrim q) := by
  have hfound : (findExact pts (jsTrim q)).isSome = true := by
    rw [findExact, List.find?_isSome]
    exact ⟨p, hp, hmatch⟩
  have hout : handleSearchById pts url q =
      { success := true, searchError := none,
        url := updateUrlState url ⟨none, none, none, some (jsTrim q)⟩ } := by
    unfold handleSearchById searchAndFlyTo
    rw [if_pos hfound]
  have hurl : updateUrlState url ⟨none, none, none, some (jsTrim q)⟩ =
      { url with params := setParam url.params "id" (jsTrim q) } := by
    unfold updateUrlState
    dsimp only
    rw [if_pos hne]
  rw [hout, hurl]
  refine ⟨rfl, getParam_setParam url.params "id" (jsTrim q), ?_⟩
  rw [parseUrlState_cellId]
  unfold cellIdOfParams
  rw [getParam_setParam]
  dsimp only
  rw [if_pos hne, jsTrim_idem]

/-- C7 witness: the amended claim at the case-insensitive example. -/
theorem C7_found_search_amended_witness :
    (handleSearchById [SurveyPoint.mk "p0" 1 2 "A23"] ⟨"", []⟩ "a23").success = true
    ∧ getParam (handleSearchById [SurveyPoint.mk "p0" 1 2 "A23"] ⟨"", []⟩ "a23").url.params "id"
        = some (jsTrim "a23")
    ∧ (parseUrlState (handleSearchById [SurveyPoint.mk "p0" 1 2 "A23"] ⟨"", []⟩ "a23").url.hash
        (handleSearchById [SurveyPoint.mk "p0" 1 2 "A23"] ⟨"", []⟩ "a23").url.params).cellId
      = some (jsTrim "a23") :=
  C7_found_search_amended [SurveyPoint.mk "p0" 1 2 "A23"] ⟨"", []⟩ "a23" (by decide)
    (SurveyPoint.mk "p0" 1 2 "A23") (by simp) (by decide)

/-! ## The loader: skip path and crash path -/

theorem buildPointsAux_ok :
    ∀ (l : List (ℕ × GFeature)) (acc : List SurveyPoint),
      (∀ p ∈ l, (featurePoint p.1 p.2).isOk = true) →
      buildPointsAux l acc = .ok (acc ++ l.filterMap fun p => featurePointOk p.1 p.2) := by
  intro l
  induction l with
  | nil =>
    intro acc _
    simp [buildPointsAux]
  | cons x t ih =>
    intro acc h
    have hx := h x (by simp)
    simp only [buildPointsAux]
    cases hfx : featurePoint x.1 x.2 with
    | error e =>
      rw [hfx] at hx
      simp [Except.isOk, Except.toBool] at hx
    | ok o =>
      have hok : featurePointOk x.1 x.2 = o := by rw [featurePointOk, hfx]
      rw [List.filterMap_cons, hok]
      cases o with
      | none =>
        simp only [hfx]
        rw [ih acc fun p hp => h p (by simp [hp])]
      | some pt =>
        simp only [hfx]
        rw [ih (acc ++ [pt]) fun p hp => h p (by simp [hp])]
        simp

theorem buildPointsAux_error :
    ∀ (l : List (ℕ × GFeature)) (acc : List SurveyPoint) (p : ℕ × GFeature) (e : String),
      p ∈ l → featurePoint p.1 p.2 = .error e →
      (buildPointsAux l acc).isOk = false := by
  intro l
  induction l with
  | nil =>
    intro acc p e hp _
    simp at hp
  | cons x t ih =>
    intro acc p e hp he
    simp only [buildPointsAux]
    cases hfx : featurePoint x.1 x.2 with
    | error e2 => rfl
    | ok o =>
      rcases List.mem_cons.mp hp with rfl | hpt
      · rw [he] at hfx
        cases hfx
      · cases o with
        | none => exact ih acc p e hpt he
        | some pt => exact ih (acc ++ [pt]) p e hpt he

theorem length_filterMap_eq_countP {α β : Type} (f : α → Option β) (l : List α) :
    (l.filterMap f).length = l.countP (fun a => (f a).isSome) := by
  induction l with
  | nil => simp
  | cons x t ih =>
    rw [List.filterMap_cons, List.countP_cons]
    cases hx : f x with
    | none => simp [hx, ih]
    | some b => simp [hx, ih]

/-- C9 counterexample to the claim as stated: a document with a perfectly
valid `features` array whose second record carries the truthy non-iterable
coordinates value `7`.  The claim demands that such a record be skipped
without failing, but `const [lng, lat] = f.geometry.coordinates || []`
throws on it and the entire load fails. -/
theorem C9_counterexample :
    (GeoDoc.mk (some sampleCrashFeatures)).features ≠ none
    ∧ loadGeoJSONData ⟨some sampleCrashFeatures⟩ = .error "TypeError: not iterable"
    ∧ (loadGeoJSONData ⟨some sampleCrashFeatures⟩).isOk = false :=
  ⟨by decide, by decide, by decide⟩

/-- C9 (amended): dataset load error-handling.  A document without a
`features` array fails the whole load with the `Invalid GeoJSON format`
error.  Given a valid `features` array, if no record throws — i.e. every
record's coordinates value is absent, falsy, an array, or a string — the
load succeeds and collects exactly the well-formed records in order, each
record with a non-`Point` geometry or missing or non-numeric coordinates
being skipped; but if any record has a `Point` geometry with a truthy
non-iterable coordinates value, its destructuring throws and the entire
load fails despite the valid container. -/
theorem C9_load_spec_amended (doc : GeoDoc) :
    (doc.features = none → loadGeoJSONData doc = .error "Invalid GeoJSON format")
    ∧ ∀ fs, doc.features = some fs →
        ((∀ p ∈ fs.enum, (featurePoint p.1 p.2).isOk = true) →
          loadGeoJSONData doc = .ok (fs.enum.filterMap fun p => featurePointOk p.1 p.2)
          ∧ (fs.enum.filterMap fun p => featurePointOk p.1 p.2).length
              = fs.enum.countP fun p => (featurePointOk p.1 p.2).isSome)
        ∧ ∀ p ∈ fs.enum, ∀ e, featurePoint p.1 p.2 = .error e →
            (loadGeoJSONData doc).isOk = false := by
  constructor
  · intro h
    unfold loadGeoJSONData
    rw [h]
  · intro fs h
    unfold loadGeoJSONData
    rw [h]
    constructor
    · intro hok
      refine ⟨?_, length_filterMap_eq_countP _ _⟩
      dsimp only
      rw [buildPoints, buildPointsAux_ok fs.enum [] hok]
      simp
    · intro p hp e he
      dsimp only
      rw [buildPoints]
      exact buildPointsAux_error fs.enum [] p e hp he

/-- C9 witness: the ten-record sample (nine well-formed, one with missing
coordinates) loads to exactly nine points; a document with no `features`
array fails; and the crash-path conjunct is exercised on the sample whose
second record holds the coordinates value `7`. -/
theorem C9_load_spec_amended_witness :
    loadGeoJSONData ⟨none⟩ = .error "Invalid GeoJSON format"
    ∧ loadGeoJSONData ⟨some sampleFeatures⟩ =
        .ok (sampleFeatures.enum.filterMap fun p => featurePointOk p.1 p.2)
    ∧ (sampleFeatures.enum.filterMap fun p => featurePointOk p.1 p.2).length = 9
    ∧ sampleFeatures.length = 10
    ∧ (loadGeoJSONData ⟨some sampleCrashFeatures⟩).isOk = false :=
  ⟨(C9_load_spec_amended ⟨none⟩).1 rfl,
    (((C9_load_spec_amended ⟨some sampleFeatures⟩).2 sampleFeatures rfl).1 (by decide)).1,
    by decide, by decide,
    ((C9_load_spec_amended ⟨some sampleCrashFeatures⟩).2 sampleCrashFeatures rfl).2
      (1, ⟨some "Point", some (.num 7), some "A2", none⟩) (by decide)
      "TypeError: not iterable" (by decide)⟩

/-! ## The suggestion ordering is a total preorder -/

theorem charListLt_cons (x y : Char) (xs ys : List Char) :
    charListLt (x :: xs) (y :: ys) =
      (decide (x.toNat < y.toNat) || (decide (x.toNat = y.toNat) && charListLt xs ys)) := by
  rw [charListLt]
  by_cases h1 : x.toNat < y.toNat
  · simp [h1]
  · by_cases h2 : y.toNat < x.toNat
    · simp [h1, h2, show ¬x.toNat = y.toNat by omega]
    · simp [h1, h2, show x.toNat = y.toNat by omega]

theorem charListLt_trans :
    ∀ (a b c : List Char), charListLt a b = true → charListLt b c = true →
      charListLt a c = true := by
  intro a
  induction a with
  | nil =>
    intro b c hab hbc
    cases b with
    | nil => simp [charListLt] at hab
    | cons y ys =>
      cases c with
      | nil => simp [charListLt] at hbc
      | cons z zs => simp [charListLt]
  | cons x xs ih =>
    intro b c hab hbc
    cases b with
    | nil => simp [charListLt] at hab
    | cons y ys =>
      cases c with
      | nil => simp [charListLt] at hbc
      | cons z zs =>
        rw [charListLt_cons] at hab hbc ⊢
        simp only [Bool.or_eq_true, Bool.and_eq_true, decide_eq_true_eq] at hab hbc ⊢
        rcases hab with h | ⟨he, hr⟩
        · rcases hbc with h' | ⟨he', hr'⟩
          · exact Or.inl (by omega)
          · exact Or.inl (by omega)
        · rcases hbc with h' | ⟨he', hr'⟩
          · exact Or.inl (by omega)
          · exact Or.inr ⟨by omega, ih ys zs hr hr'⟩

theorem charListLt_irrefl : ∀ a : List Char, charListLt a a = false := by
  intro a
  induction a with
  | nil => rfl
  | cons x xs ih =>
    rw [charListLt_cons]
    simp [ih]

theorem char_eq_of_toNat_eq {a b : Char} (h : a.toNat = b.toNat) : a = b := by
  have ha := Char.ofNat_toNat a
  have hb := Char.ofNat_toNat b
  rw [← ha, ← hb, h]

theorem charListLt_eq_of_not_lt :
    ∀ (a b : List Char), charListLt a b = false → charListLt b a = false → a = b := by
  intro a
  induction a with
  | nil =>
    intro b h1 h2
    cases b with
    | nil => rfl
    | cons y ys => simp [charListLt] at h1
  | cons x xs ih =>
    intro b h1 h2
    cases b with
    | nil => simp [charListLt] at h2
    | cons y ys =>
      rw [charListLt_cons] at h1 h2
      simp only [Bool.or_eq_false_iff, Bool.and_eq_false_iff, decide_eq_false_iff_not,
        decide_eq_true_eq] at h1 h2
      obtain ⟨h1a, h1b⟩ := h1
      obtain ⟨h2a, h2b⟩ := h2
      have hxy : x.toNat = y.toNat := by omega
      have hx : x = y := char_eq_of_toNat_eq hxy
      subst hx
      have hxs : charListLt xs ys = false := by
        rcases h1b with h | h
        · exact absurd rfl h
        · exact h
      have hys : charListLt ys xs = false := by
        rcases h2b with h | h
        · exact absurd rfl h
        · exact h
      rw [ih ys hxs hys]

theorem strLe_trans : ∀ a b c : String, strLe a b → strLe b c → strLe a c := by
  intro a b c hab hbc
  unfold strLe strLtB at hab hbc ⊢
  cases hca : charListLt c.data a.data with
  | false => rfl
  | true =>
    exfalso
    cases hbc' : charListLt b.data c.data with
    | true =>
      have hba := charListLt_trans b.data c.data a.data hbc' hca
      rw [hab] at hba
      exact Bool.false_ne_true hba
    | false =>
      have heq := charListLt_eq_of_not_lt b.data c.data hbc' hbc
      rw [← heq] at hca
      rw [hab] at hca
      exact Bool.false_ne_true hca

theorem strLe_total : ∀ a b : String, strLe a b ∨ strLe b a := by
  intro a b
  unfold strLe strLtB
  cases h : charListLt b.data a.data with
  | false => exact Or.inl rfl
  | true =>
    right
    cases h2 : charListLt a.data b.data with
    | false => rfl
    | true =>
      exfalso
      have := charListLt_trans a.data b.data a.data h2 h
      rw [charListLt_irrefl] at this
      exact Bool.false_ne_true this

/-! ## Substring containment -/

theorem jsIncludesL_iff (pat : List Char) :
    ∀ s : List Char, jsIncludesL s pat = true ↔ ∃ l r, s = l ++ pat ++ r := by
  intro s
  induction s with
  | nil =>
    rw [jsIncludesL]
    by_cases hp : pat.isPrefixOf ([] : List Char) = true
    · rw [if_pos hp]
      have hnil : pat = [] := by
        have := List.isPrefixOf_iff_prefix.mp hp
        simpa using this
      subst hnil
      simp
    · rw [if_neg hp]
      constructor
      · intro h
        simp at h
      · rintro ⟨l, r, hlr⟩
        exfalso
        apply hp
        rw [ List.isPrefixOf_iff_prefix]
        have : l = [] ∧ pat ++ r = [] := by
          constructor
          · cases l with
            | nil => rfl
            | cons c t => simp at hlr
          · cases l with
            | nil => simpa using hlr.symm
            | cons c t => simp at hlr
        have hpn : pat = [] := by
          have := this.2
          cases pat with
          | nil => rfl
          | cons c t => simp at this
        rw [hpn]
  | cons c t ih =>
    rw [jsIncludesL]
    by_cases hp : pat.isPrefixOf (c :: t) = true
    · rw [if_pos hp]
      simp only [true_iff]
      obtain ⟨r, hr⟩ := List.isPrefixOf_iff_prefix.mp hp
      exact ⟨[], r, by simp [← hr]⟩
    · rw [if_neg hp, ih]
      constructor
      · rintro ⟨l, r, hlr⟩
        exact ⟨c :: l, r, by simp [hlr]⟩
      · rintro ⟨l, r, hlr⟩
        cases l with
        | nil =>
          exfalso
          apply hp
          rw [ List.isPrefixOf_iff_prefix]
          exact ⟨r, by simpa using hlr.symm⟩
        | cons c2 l2 =>
          simp only [List.cons_append, List.cons.injEq] at hlr
          exact ⟨l2, r, hlr.2⟩

/-- C5: suggestions.  The suggestion pipeline (trim in the search box, then
`getSuggestions`, then `slice(0, 5)`) yields, for a non-blank query, the
first five entries of a sorted permutation of the cellIds of exactly the
points whose lowered cellId contains the lowered trimmed query as a
substring; the result is always sorted, holds at most five entries, every
entry comes from a matching point, and a blank query yields the empty
sequence. -/
theorem C5_suggest_spec (pts : List SurveyPoint) (q : String) :
    (jsTrim q = "" → suggest pts q = [])
    ∧ (suggest pts q).length ≤ 5
    ∧ List.Sorted strLe (suggest pts q)
    ∧ (jsTrim q ≠ "" → ∃ full : List String,
        full.Perm ((pts.filter fun p =>
            jsIncludesL (lowerS p.cell_id).data (lowerS (jsTrim q)).data).map
          fun p => p.cell_id)
        ∧ List.Sorted strLe full ∧ suggest pts q = full.take 5)
    ∧ ∀ s ∈ suggest pts q, ∃ p ∈ pts, p.cell_id = s
        ∧ ∃ l r, (lowerS p.cell_id).data = l ++ (lowerS (jsTrim q)).data ++ r := by
  haveI : IsTrans String strLe := ⟨strLe_trans⟩
  haveI : IsTotal String strLe := ⟨strLe_total⟩
  by_cases hq : jsTrim q = ""
  · rw [suggest, if_pos hq]
    exact ⟨fun _ => rfl, by simp, List.sorted_nil, fun hne => absurd hq hne, by simp⟩
  · have hsug : suggest pts q = (getSuggestions pts (jsTrim q)).take 5 := by
      rw [suggest, if_neg hq]
    have hget : getSuggestions pts (jsTrim q) =
        ((pts.filter fun p =>
            jsIncludesL (lowerS p.cell_id).data (lowerS (jsTrim q)).data).map
          fun p => p.cell_id).insertionSort strLe := by
      rw [getSuggestions, if_neg (by rw [jsTrim_idem]; exact hq)]
    have hsorted : List.Sorted strLe (getSuggestions pts (jsTrim q)) := by
      rw [hget]
      exact List.sorted_insertionSort strLe _
    have hperm := List.perm_insertionSort strLe ((pts.filter fun p =>
        jsIncludesL (lowerS p.cell_id).data (lowerS (jsTrim q)).data).map
      fun p => p.cell_id)
    refine ⟨fun h => absurd h hq, ?_, ?_,
      fun _ => ⟨getSuggestions pts (jsTrim q), ?_, hsorted, hsug⟩, ?_⟩
    · rw [hsug]
      exact List.length_take_le 5 _
    · rw [hsug]
      exact List.Pairwise.sublist (List.take_sublist 5 _) hsorted
    · rw [hget]
      exact hperm
    · intro s hs
      rw [hsug] at hs
      have hs2 : s ∈ getSuggestions pts (jsTrim q) := List.mem_of_mem_take hs
      rw [hget, List.mem_insertionSort] at hs2
      obtain ⟨p, hpmem, hps⟩ := List.mem_map.mp hs2
      obtain ⟨hpin, hpmatch⟩ := List.mem_filter.mp hpmem
      obtain ⟨l, r, hlr⟩ := (jsIncludesL_iff _ _).mp hpmatch
      exact ⟨p, hpin, hps, l, r, hlr⟩

/-- C5 witness: the specification's example — cellIds `B2`, `A23`, `A1` with
query `a` — yields `[A1, A23]`, and a whitespace-only query yields nothing. -/
theorem C5_suggest_spec_witness :
    suggest [SurveyPoint.mk "p0" 1 1 "B2", SurveyPoint.mk "p1" 1 1 "A23",
        SurveyPoint.mk "p2" 1 1 "A1"] "  " = []
    ∧ (suggest [SurveyPoint.mk "p0" 1 1 "B2", SurveyPoint.mk "p1" 1 1 "A23",
        SurveyPoint.mk "p2" 1 1 "A1"] "a").length ≤ 5
    ∧ suggest [SurveyPoint.mk "p0" 1 1 "B2", SurveyPoint.mk "p1" 1 1 "A23",
        SurveyPoint.mk "p2" 1 1 "A1"] "a" = ["A1", "A23"] :=
  ⟨(C5_suggest_spec [SurveyPoint.mk "p0" 1 1 "B2", SurveyPoint.mk "p1" 1 1 "A23",
      SurveyPoint.mk "p2" 1 1 "A1"] "  ").1 (by decide),
    (C5_suggest_spec [SurveyPoint.mk "p0" 1 1 "B2", SurveyPoint.mk "p1" 1 1 "A23",
      SurveyPoint.mk "p2" 1 1 "A1"] "a").2.1,
    by decide⟩
